import Mathlib

/-!
Verification development for the news-aggregator data-access layer.

The Python sources under `news_aggregator_data_access_layer/` are shallowly
embedded below: S3 is modelled as an association list from object keys to
objects (body, metadata, tags), Python dicts as insertion-ordered association
lists, exceptions as explicit error values, and the stateful repository
operations as explicit state-passing functions.  External collaborators
(the NewsPlease extractor, tldextract, the regex engine) enter as oracle
parameters; the Python standard-library pieces actually exercised by this
repository (`datetime.fromisoformat`, `str.split('.')[0]`, `dict.pop`,
`dict.update`) are modelled concretely on the input shapes the repository
produces.
-/

namespace NADAL

/-! ## Python dict model: insertion-ordered association lists -/

/-- Lookup in a Python-dict-like association list (`d[k]` / `d.get(k)`). -/
def dictGet {β : Type} : List (String × β) → String → Option β
  | [], _ => none
  | (k', v) :: rest, k => if k' = k then some v else dictGet rest k

/-- Insert-or-replace in a Python-dict-like association list (`d[k] = v`,
also the effect of `d.update({k: v})` for a single key). Replacement keeps
the key's original position, as CPython dicts do. -/
def dictSet {β : Type} : List (String × β) → String → β → List (String × β)
  | [], k, v => [(k, v)]
  | (k', v') :: rest, k, v =>
    if k' = k then (k, v) :: rest else (k', v') :: dictSet rest k v

/-- Python `d.pop(k)`: returns the popped value together with the remaining
dict, or `none` when the key is absent (Python raises `KeyError`). -/
def dictPop {β : Type} : List (String × β) → String → Option (β × List (String × β))
  | [], _ => none
  | (k', v) :: rest, k =>
    if k' = k then some (v, rest)
    else (dictPop rest k).map (fun p => (p.1, (k', v) :: p.2))

theorem dictGet_dictSet_same {β : Type} (m : List (String × β)) (k : String) (v : β) :
    dictGet (dictSet m k v) k = some v := by
  induction m with
  | nil => simp [dictSet, dictGet]
  | cons hd tl ih =>
    obtain ⟨k', v'⟩ := hd
    by_cases h : k' = k
    · simp [dictSet, dictGet, h]
    · simp [dictSet, dictGet, h, ih]

theorem dictGet_dictSet_other {β : Type} (m : List (String × β)) (k k' : String) (v : β)
    (hne : k' ≠ k) : dictGet (dictSet m k v) k' = dictGet m k' := by
  induction m with
  | nil => simp [dictSet, dictGet, Ne.symm hne]
  | cons hd tl ih =>
    obtain ⟨k₀, v₀⟩ := hd
    by_cases h : k₀ = k
    · subst h
      simp [dictSet, dictGet, Ne.symm hne]
    · simp [dictSet, dictGet, h, ih]

theorem dictSet_dictSet_same {β : Type} (m : List (String × β)) (k : String) (v w : β) :
    dictSet (dictSet m k v) k w = dictSet m k w := by
  induction m with
  | nil => simp [dictSet]
  | cons hd tl ih =>
    obtain ⟨k₀, v₀⟩ := hd
    by_cases h : k₀ = k
    · simp [dictSet, h]
    · simp [dictSet, h, ih]

/-- Errors surfaced by the embedded Python code. -/
inductive PyError where
  /-- `S3ObjectAlreadyExistsException` -/
  | s3ObjectAlreadyExists
  /-- `PublishedDateInvalidFormat` -/
  | publishedDateInvalidFormat
  /-- Python `ValueError` -/
  | valueError
  /-- Python `KeyError` -/
  | keyError
  /-- `botocore` `ClientError` other than a 404 on `head_object` -/
  | clientError
  deriving Repr, DecidableEq

/-! ## Python `datetime` model

Modelled are the aware UTC datetimes of the documented `fromisoformat`
grammar `YYYY-MM-DD[*HH[:MM[:SS]]][+00:00]` with a time part and the zero
offset present: strict zero-padded date, any single separator character,
reduced- or full-precision time, no fractional seconds, offset exactly
`+00:00`. These are the strings this repository's code can feed the
parser (regex-validated `dt_published` values, and the dot-free prefix
plus `"+00:00"` that `standardize_published_date` constructs), and on them
every supported CPython version behaves identically; see the doc comment
on `datetime_fromisoformat` for what falls outside and why. -/

/-- An aware UTC Python datetime with zero microseconds. -/
structure PyDateTime where
  year : Nat
  month : Nat
  day : Nat
  hour : Nat
  minute : Nat
  second : Nat
  deriving Repr, DecidableEq

/-- Leap-year rule used by Python's `datetime` (proleptic Gregorian). -/
def isLeapYear (y : Nat) : Bool :=
  y % 4 = 0 && (y % 100 ≠ 0 || y % 400 = 0)

/-- Days in a month, as validated by the `datetime` constructor. -/
def daysInMonth (y m : Nat) : Nat :=
  if m = 2 then (if isLeapYear y then 29 else 28)
  else if m = 4 || m = 6 || m = 9 || m = 11 then 30
  else 31

def digitVal (c : Char) : Nat := c.toNat - 48

/-- Decimal-digit test, phrased on code points. -/
def isDigitChar (c : Char) : Bool := 48 ≤ c.toNat && c.toNat ≤ 57

/-- Parse exactly two decimal digits. -/
def parse2 : List Char → Option (Nat × List Char)
  | c1 :: c2 :: rest =>
    if isDigitChar c1 && isDigitChar c2 then some (digitVal c1 * 10 + digitVal c2, rest)
    else none
  | _ => none

/-- Parse exactly four decimal digits. -/
def parse4 : List Char → Option (Nat × List Char)
  | c1 :: c2 :: c3 :: c4 :: rest =>
    if isDigitChar c1 && isDigitChar c2 && isDigitChar c3 && isDigitChar c4 then
      some (digitVal c1 * 1000 + digitVal c2 * 100 + digitVal c3 * 10 + digitVal c4, rest)
    else none
  | _ => none

def expectChar (c : Char) : List Char → Option (List Char)
  | c' :: rest => if c' = c then some rest else none
  | _ => none

/-- Parse `YYYY-MM-DD` and return the remaining characters. -/
def parseYMD (l : List Char) : Option (Nat × Nat × Nat × List Char) :=
  match parse4 l with
  | none => none
  | some (y, l1) =>
    match expectChar '-' l1 with
    | none => none
    | some l2 =>
      match parse2 l2 with
      | none => none
      | some (mo, l3) =>
        match expectChar '-' l3 with
        | none => none
        | some l4 =>
          match parse2 l4 with
          | none => none
          | some (d, l5) => some (y, mo, d, l5)

/-- Parse a reduced-precision time `HH[:MM[:SS]]` per the documented
`fromisoformat` grammar: minutes and seconds may be omitted and default to
zero. Stops at the first character that does not continue the pattern,
returning it with the rest (the caller requires the remainder to be the
UTC offset). -/
def parseTimeRP (l : List Char) : Option (Nat × Nat × Nat × List Char) :=
  match parse2 l with
  | none => none
  | some (h, l1) =>
    match l1 with
    | ':' :: l2 =>
      (match parse2 l2 with
       | none => none
       | some (mi, l3) =>
         match l3 with
         | ':' :: l4 =>
           (match parse2 l4 with
            | none => none
            | some (s, l5) => some (h, mi, s, l5))
         | _ => some (h, mi, 0, l3))
    | _ => some (h, 0, 0, l1)

/-- Range validation performed by the `datetime` constructor
(`MINYEAR = 1 ≤ year ≤ MAXYEAR = 9999`, calendar-valid month/day, in-range
time components). -/
def validDateTime (y mo d h mi s : Nat) : Bool :=
  1 ≤ y && y ≤ 9999 && 1 ≤ mo && mo ≤ 12 && 1 ≤ d && d ≤ daysInMonth y mo
    && h ≤ 23 && mi ≤ 59 && s ≤ 59

/-- Core of the `datetime.fromisoformat` model, over character lists:
`YYYY-MM-DD`, one separator character (any character, per the documented
grammar `YYYY-MM-DD[*HH[:MM[:SS[.ffffff]]][+HH:MM[:SS[.ffffff]]]]`), a
reduced- or full-precision time, and the literal UTC offset `+00:00`. -/
def parseIsoChars (l : List Char) : Option PyDateTime :=
  match parseYMD l with
  | none => none
  | some (y, mo, d, l1) =>
    match l1 with
    | [] => none
    | _sep :: l2 =>
      match parseTimeRP l2 with
      | none => none
      | some (h, mi, s, l3) =>
        if l3 = ['+', '0', '0', ':', '0', '0'] then
          if validDateTime y mo d h mi s then some ⟨y, mo, d, h, mi, s⟩ else none
        else none

/-- Model of `datetime.fromisoformat` on the aware, fraction-free UTC
shapes `YYYY-MM-DD<sep>HH[:MM[:SS]]+00:00` (any single separator
character, omitted time components defaulting to zero), which is the
documented `fromisoformat` grammar restricted to the strings this
repository's code can feed it: `dt_published` values validated by
`DATE_PUBLISHED_ARTICLE_REGEX`, and the strings
`standardize_published_date` builds — a dot-free prefix (fractions
stripped by the split) with `"+00:00"` appended. On this family every
supported CPython version agrees with the model. Strings whose acceptance
or result differs between CPython versions (date-only and other naive
parses, like `"2023-04-11"+"+00:00"`, naive on 3.10 and aware on 3.11+)
or that every version rejects (a second `+`/`-` offset in the tail,
malformed digits) are mapped to `none`, and no theorem below derives
program behaviour from an input this model maps to `none`. -/
def datetime_fromisoformat (s : String) : Option PyDateTime :=
  parseIsoChars s.data

/-- Zero-padded two-digit decimal rendering (strftime `%m`/`%d`/... on
validated in-range values). -/
def pad2 (n : Nat) : String :=
  String.mk [Char.ofNat (48 + n / 10 % 10), Char.ofNat (48 + n % 10)]

/-- Zero-padded four-digit decimal rendering (strftime `%Y` on validated
in-range values). -/
def pad4 (n : Nat) : String :=
  String.mk [Char.ofNat (48 + n / 1000 % 10), Char.ofNat (48 + n / 100 % 10),
             Char.ofNat (48 + n / 10 % 10), Char.ofNat (48 + n % 10)]

/-- Model of `datetime.isoformat()` on an aware UTC datetime with zero
microseconds: seconds precision plus the `+00:00` offset. -/
def pydatetime_isoformat (d : PyDateTime) : String :=
  pad4 d.year ++ "-" ++ pad2 d.month ++ "-" ++ pad2 d.day ++ "T" ++
  pad2 d.hour ++ ":" ++ pad2 d.minute ++ ":" ++ pad2 d.second ++ "+00:00"

/-- Model of `dt_to_lexicographic_date_s3_prefix` (strftime `%Y/%m/%d`). -/
def dt_to_lexicographic_date_s3_pfx (d : PyDateTime) : String :=
  pad4 d.year ++ "/" ++ pad2 d.month ++ "/" ++ pad2 d.day

/-- Model of `utils/datetime.py` `standardize_published_date`. The compiled
regex is an external collaborator, passed as the Boolean matcher
`matches_expected_dt_regex` (the result of `re.match(expected_dt_regex, dt_str)`
coerced to a truth value). On a match the code takes `dt_str.split(".")[0]`
(everything before the first dot — `splitDotHead` here), appends
"+00:00", parses with `datetime.fromisoformat`, and returns `isoformat()`
of the result; a parse failure inside the `try` block is converted to
`PublishedDateInvalidFormat`, as is a failed regex match. -/
def splitDotHead (dt_str : String) : String :=
  String.mk (dt_str.data.takeWhile (fun c => c ≠ '.'))

/-- Model of `standardize_published_date`; see `splitDotHead` above. -/
def standardize_published_date (matches_expected_dt_regex : String → Bool)
    (dt_str : String) : Except PyError String :=
  if matches_expected_dt_regex dt_str then
    match datetime_fromisoformat (splitDotHead dt_str ++ "+00:00") with
    | some d => .ok (pydatetime_isoformat d)
    | none => .error .publishedDateInvalidFormat
  else .error .publishedDateInvalidFormat

/-! ## S3 model (`utils/s3.py`)

A bucket is an association list from object keys to stored objects. Errors
raised by the Python code are modelled as explicit error values; a failed
call leaves the bucket state unchanged, mirroring an exception propagating
before the write is issued. -/

/-- A stored S3 object: body, user metadata and object tags. -/
structure S3Object where
  body : String
  metadata : List (String × String)
  tags : List (String × String)
  deriving Repr, DecidableEq

/-- The contents of one S3 bucket. -/
abbrev S3State : Type := List (String × S3Object)

/-- Model of `object_exists`: a `head_object` that 404s returns `False`. -/
def object_exists (s : S3State) (object_key : String) : Bool :=
  (dictGet s object_key).isSome

/-- Model of `store_object_in_s3`. Returns the bucket state after the call
together with the exception, if one was raised; a raised exception means no
`put_object` was issued, so the state is returned unchanged. -/
def store_object_in_s3 (s : S3State) (object_key body : String)
    (object_tags object_metadata : List (String × String)) (overwrite_allowed : Bool) :
    S3State × Option PyError :=
  if !overwrite_allowed && object_exists s object_key then
    (s, some .s3ObjectAlreadyExists)
  else
    (dictSet s object_key ⟨body, object_metadata, object_tags⟩, none)

/-- Model of `get_object`: body, metadata and tags of the object at the key,
or `none` where boto3 raises `NoSuchKey`. -/
def get_object (s : S3State) (object_key : String) :
    Option (String × List (String × String) × List (String × String)) :=
  (dictGet s object_key).map (fun o => (o.body, o.metadata, o.tags))

/-- Model of `get_object_tags` (a `get_object_tagging` call followed by
`create_tagging_map_for_object`); `none` where boto3 raises. -/
def get_object_tags (s : S3State) (object_key : String) :
    Option (List (String × String)) :=
  (dictGet s object_key).map (fun o => o.tags)

/-- Model of `update_object_tags` (`put_object_tagging`): full replacement of
the object's tag set; `none` where boto3 raises on a missing key. -/
def update_object_tags (s : S3State) (object_key : String)
    (object_tags_to_update : List (String × String)) : Option S3State :=
  match dictGet s object_key with
  | none => none
  | some o => some (dictSet s object_key { o with tags := object_tags_to_update })

/-- Model of `store_success_file`: writes the marker object at
`prefix/success_marker_fn` with the given metadata, overwrite always
allowed. The body is the lexicographic rendering of `datetime.now`, passed
in as `now_body` since the clock is external. -/
def store_success_file (s : S3State) (pfx success_marker_fn now_body : String)
    (object_metadata : List (String × String)) : S3State :=
  (store_object_in_s3 s (pfx ++ "/" ++ success_marker_fn) now_body [] object_metadata true).1

/-- Model of `get_success_file`. -/
def get_success_file (s : S3State) (pfx success_marker_fn : String) :
    Option (String × List (String × String) × List (String × String)) :=
  get_object s (pfx ++ "/" ++ success_marker_fn)

/-- Model of `success_file_exists_at_prefix`. -/
def success_file_exists_at_pfx (s : S3State) (pfx success_marker_fn : String) : Bool :=
  object_exists s (pfx ++ "/" ++ success_marker_fn)

/-- Modelled from the spec: the Repository-side success-marker accumulation
policy (spec section 4.2). The caller that implements it is not under
`src/` — `news_assets.py` imports `store_success_file`, `get_success_file`
and `success_file_exists_at_prefix` but no code under `src/` calls them —
so, per the spec's words: read the existing marker metadata (if the marker
is present) for the comma-joined fields "aggregators" and "aggregators_dt",
append the new aggregator id / timestamp rather than replacing, then
rewrite the marker through `store_success_file`. -/
def mark_complete_accumulating (s : S3State) (pfx success_marker_fn aggregator_id
    aggregator_dt now_body : String) : S3State :=
  let existing := get_success_file s pfx success_marker_fn
  let aggs :=
    match existing with
    | none => aggregator_id
    | some (_, md, _) =>
      match dictGet md "aggregators" with
      | none => aggregator_id
      | some prev => prev ++ "," ++ aggregator_id
  let aggsDt :=
    match existing with
    | none => aggregator_dt
    | some (_, md, _) =>
      match dictGet md "aggregators_dt" with
      | none => aggregator_dt
      | some prev => prev ++ "," ++ aggregator_dt
  store_success_file s pfx success_marker_fn now_body
    [("aggregators", aggs), ("aggregators_dt", aggsDt)]

/-! ## Article domain model (`assets/news_assets.py`) -/

/-- Constants from `constants.py`. -/
def NO_CATEGORY_STR : String := "n/a"

def ARTICLE_NOT_SOURCED_TAGS_FLAG : String := "False"

def ARTICLE_SOURCED_TAGS_FLAG : String := "True"

/-- The `RawArticle` pydantic model. Optional fields carry the same defaults
as in the source. -/
structure RawArticle where
  article_id : String
  aggregator_id : String
  dt_published : String
  aggregation_index : Int
  topic_id : String
  topic : String
  discovered_topic : String := ""
  category : String := NO_CATEGORY_STR
  title : String
  url : String
  author : String := ""
  article_full_text : String := ""
  article_text_snippet : String := ""
  article_text_description : String := ""
  article_data : String
  sorting : String
  article_type : String := "news"
  provider_domain : String := ""
  article_processed_data : String := ""
  deriving Repr, DecidableEq

/-- The `RawArticleEmbedding` pydantic model; the float vector is modelled
with rationals (no claim inspects the numeric values). -/
structure RawArticleEmbedding where
  article_id : String
  embedding_type : String
  embedding_model_name : String
  embedding : List Rat
  deriving Repr, DecidableEq

/-- Result of `NewsPlease.from_url` as consumed by `process_article_data`:
the main text, the meta description, and the rest of the fields of
`get_serializable_dict()`. -/
structure NewsPleaseArticle where
  maintext : String
  description : String
  other_fields : List (String × String)
  deriving Repr, DecidableEq

/-- Model of `article.get_serializable_dict()`: a dict containing the
`maintext` entry alongside the article's other serializable fields. -/
def get_serializable_dict (art : NewsPleaseArticle) : List (String × String) :=
  ("maintext", art.maintext) :: art.other_fields

/-- Model of `json.dumps` on a string value. -/
def json_dumps_string (s : String) : String :=
  "\"" ++ String.join (s.data.map (fun c =>
    if c = '"' then "\\\"" else if c = '\\' then "\\\\" else String.mk [c])) ++ "\""

/-- Model of `json.dumps` on a dict of strings. -/
def json_dumps_dict (m : List (String × String)) : String :=
  "\x7b" ++ String.intercalate ", "
    (m.map (fun p => json_dumps_string p.1 ++ ": " ++ json_dumps_string p.2)) ++ "\x7d"

/-- Model of `RawArticle.process_article_data`. The two external
collaborators are passed as oracles: `extract_domain` stands for the
tldextract block that lower-cases and joins subdomain/domain/suffix
(dropping a leading "www"), and `fetched` is the result of
`NewsPlease.from_url(self.url)`, with `none` covering a falsy article
object. Mirrors the source line by line: an early return when
`article_processed_data` is already truthy; the provider-domain derivation
happens before the usable-maintext check; on a missing or empty maintext
the method returns with no further mutation; otherwise the full text,
description (only if previously empty) and processed data are set — the
processed data being `json.dumps` of the value returned by
`get_serializable_dict().pop("maintext")`, which in Python is the popped
maintext value itself. -/
def process_article_data (extract_domain : String → String)
    (fetched : Option NewsPleaseArticle) (a : RawArticle) : RawArticle :=
  if a.article_processed_data ≠ "" then a
  else
    let a1 := if a.provider_domain = "" then
        { a with provider_domain := extract_domain a.url } else a
    match fetched with
    | none => a1
    | some art =>
      if art.maintext = "" then a1
      else
        let a2 := { a1 with article_full_text := art.maintext }
        let a3 := if a2.article_text_description = "" then
            { a2 with article_text_description := art.description } else a2
        match dictPop (get_serializable_dict art) "maintext" with
        | none => a3
        | some (popped_value, _) =>
          { a3 with article_processed_data := json_dumps_string popped_value }

/-- The three mutating entry points of the enrichment surface. -/
inductive ArticleCall where
  | processArticleData
  | getArticleText
  | getArticleTextDescription
  deriving Repr, DecidableEq

/-- State effect of one call: `get_article_text` and
`get_article_text_description` invoke `process_article_data` only when
their field is still falsy, then return the field. -/
def article_call_step (extract_domain : String → String)
    (fetched : Option NewsPleaseArticle) : ArticleCall → RawArticle → RawArticle
  | .processArticleData, a => process_article_data extract_domain fetched a
  | .getArticleText, a =>
    if a.article_full_text = "" then process_article_data extract_domain fetched a else a
  | .getArticleTextDescription, a =>
    if a.article_text_description = "" then process_article_data extract_domain fetched a
    else a

/-- Run a sequence of calls, each with its own fetch-oracle response. -/
def run_article_calls (extract_domain : String → String) :
    List (ArticleCall × Option NewsPleaseArticle) → RawArticle → RawArticle
  | [], a => a
  | (c, f) :: rest, a =>
    run_article_calls extract_domain rest (article_call_step extract_domain f c a)

/-! ## Candidate-article repository (`CandidateArticles`) -/

/-- Key of the `is_sourced_article` object tag. -/
def is_sourced_article_tag_key : String := "is_sourced_article"

/-- Model of `_get_raw_candidates_s3_object_prefix`. -/
def raw_candidates_s3_object_pfx (topic_id article_published_date : String) : String :=
  "raw_candidate_articles/" ++ topic_id ++ "/" ++ article_published_date

/-- Model of `_get_raw_candidate_embeddings_s3_object_prefix`. -/
def raw_candidate_embeddings_s3_object_pfx (topic_id article_published_date : String) :
    String :=
  "raw_candidate_article_embeddings/" ++ topic_id ++ "/" ++ article_published_date

/-- Model of `_get_raw_article_s3_object_key`; `none` where
`datetime.fromisoformat` raises on the article's `dt_published`. -/
def raw_article_s3_object_key (topic_id : String) (a : RawArticle) : Option String :=
  (datetime_fromisoformat a.dt_published).map (fun d =>
    raw_candidates_s3_object_pfx topic_id (dt_to_lexicographic_date_s3_pfx d)
      ++ "/" ++ a.article_id ++ ".json")

/-- Model of `_get_raw_article_embedding_s3_object_key`. -/
def raw_article_embedding_s3_object_key (topic_id : String) (a : RawArticle) :
    Option String :=
  (datetime_fromisoformat a.dt_published).map (fun d =>
    raw_candidate_embeddings_s3_object_pfx topic_id (dt_to_lexicographic_date_s3_pfx d)
      ++ "/" ++ a.article_id ++ ".json")

/-- Serialized pydantic body of an embedding (`embedding.json()`). -/
def raw_article_embedding_json (e : RawArticleEmbedding) : String :=
  "\x7b" ++ json_dumps_string "article_id" ++ ": " ++ json_dumps_string e.article_id
    ++ ", " ++ json_dumps_string "embedding_type" ++ ": "
    ++ json_dumps_string e.embedding_type
    ++ ", " ++ json_dumps_string "embedding_model_name" ++ ": "
    ++ json_dumps_string e.embedding_model_name
    ++ ", " ++ json_dumps_string "embedding" ++ ": ["
    ++ String.intercalate ", " (e.embedding.map (fun q => toString q.num ++ "/" ++ toString q.den))
    ++ "]" ++ "\x7d"

/-- One `store_object_in_s3` call issued by the repository, recorded with
all of its arguments. -/
structure StoreCall where
  object_key : String
  body : String
  object_tags : List (String × String)
  object_metadata : List (String × String)
  overwrite_allowed : Bool
  deriving Repr, DecidableEq

/-- Python `set.add` on a set modelled as a duplicate-free list. -/
def setAdd (l : List String) (x : String) : List String :=
  if x ∈ l then l else l ++ [x]

/-- Loop body of `_store_embeddings_in_s3` over the zipped batches:
`prefixes` accumulates the touched prefixes, `calls` the store calls issued
so far. The positional `article_id` check runs first in each iteration; a
mismatch raises `ValueError` with the store calls of the earlier iterations
already issued. -/
def store_embeddings_loop (topic_id : String) :
    List (RawArticle × RawArticleEmbedding) → List String → List StoreCall →
    List String × List StoreCall × Option PyError
  | [], pfxs, calls => (pfxs, calls, none)
  | (a, e) :: rest, pfxs, calls =>
    if a.article_id ≠ e.article_id then (pfxs, calls, some .valueError)
    else
      match datetime_fromisoformat a.dt_published with
      | none => (pfxs, calls, some .valueError)
      | some d =>
        let pfx := raw_candidate_embeddings_s3_object_pfx topic_id
          (dt_to_lexicographic_date_s3_pfx d)
        let key := pfx ++ "/" ++ a.article_id ++ ".json"
        store_embeddings_loop topic_id rest (setAdd pfxs pfx)
          (calls ++ [⟨key, raw_article_embedding_json e, [], [], true⟩])

/-- Model of `_store_embeddings_in_s3`: the batches are combined with
`zip`, so a longer batch is silently truncated to the shorter one. Returns
the distinct prefixes touched, the store calls issued, and the exception
raised, if any. -/
def store_embeddings_in_s3 (topic_id : String) (articles : List RawArticle)
    (embeddings : List RawArticleEmbedding) :
    List String × List StoreCall × Option PyError :=
  store_embeddings_loop topic_id (articles.zip embeddings) [] []

/-- One article as handed back by `load_articles`: the parsed article with
its object metadata and tags. -/
structure LoadedEntry where
  object_key : String
  article : RawArticle
  metadata : List (String × String)
  tags : List (String × String)
  deriving Repr, DecidableEq

/-- The triple `load_articles` appends to `candidate_articles`. -/
def toTriple (e : LoadedEntry) :
    RawArticle × List (String × String) × List (String × String) :=
  (e.article, e.metadata, e.tags)

/-- Filter/dedup loop of `load_articles` over the entries listed from S3
(in ascending key order, as `list_objects_v2` pagination returns them).
When both tag filter arguments are truthy, `object_tags[tag_filter_key]`
is evaluated — a missing key raises Python's `KeyError`; a non-matching
value skips the entry.  An entry whose `url` was already seen is skipped;
otherwise it is kept and its url recorded. -/
def load_articles_loop (tag_filter_key tag_filter_value : String)
    (unique_urls : List String) :
    List LoadedEntry →
    Except PyError (List (RawArticle × List (String × String) × List (String × String)))
  | [] => .ok []
  | e :: rest =>
    if tag_filter_key ≠ "" ∧ tag_filter_value ≠ "" then
      match dictGet e.tags tag_filter_key with
      | none => .error .keyError
      | some tv =>
        if tv ≠ tag_filter_value then
          load_articles_loop tag_filter_key tag_filter_value unique_urls rest
        else if e.article.url ∈ unique_urls then
          load_articles_loop tag_filter_key tag_filter_value unique_urls rest
        else
          (load_articles_loop tag_filter_key tag_filter_value
            (e.article.url :: unique_urls) rest).map (toTriple e :: ·)
    else if e.article.url ∈ unique_urls then
      load_articles_loop tag_filter_key tag_filter_value unique_urls rest
    else
      (load_articles_loop tag_filter_key tag_filter_value
        (e.article.url :: unique_urls) rest).map (toTriple e :: ·)

/-- Model of `load_articles` (S3 backend) applied to the listed, parsed
entries: runs the filter/dedup loop with an empty seen-url set. -/
def load_articles (tag_filter_key tag_filter_value : String)
    (entries : List LoadedEntry) :
    Except PyError (List (RawArticle × List (String × String) × List (String × String))) :=
  load_articles_loop tag_filter_key tag_filter_value [] entries

/-- Per-article loop of `_update_s3_articles_is_sourced_tag`: compute the
article's key, read its current tags, overlay the `is_sourced_article` tag,
and write the merged tag set back. -/
def update_is_sourced_tag_loop (topic_id updated_tag_value : String) (s : S3State) :
    List RawArticle → S3State × Option PyError
  | [] => (s, none)
  | a :: rest =>
    match raw_article_s3_object_key topic_id a with
    | none => (s, some .valueError)
    | some key =>
      match get_object_tags s key with
      | none => (s, some .clientError)
      | some existing_tags =>
        match update_object_tags s key
          (dictSet existing_tags is_sourced_article_tag_key updated_tag_value) with
        | none => (s, some .clientError)
        | some s' => update_is_sourced_tag_loop topic_id updated_tag_value s' rest

/-- Model of `_update_s3_articles_is_sourced_tag`: the tag-value validation
runs before the loop, so an invalid value raises `ValueError` with the
bucket untouched and no read issued. -/
def update_s3_articles_is_sourced_tag (topic_id : String) (s : S3State)
    (articles : List RawArticle) (updated_tag_value : String) :
    S3State × Option PyError :=
  if updated_tag_value ≠ ARTICLE_SOURCED_TAGS_FLAG
      ∧ updated_tag_value ≠ ARTICLE_NOT_SOURCED_TAGS_FLAG then
    (s, some .valueError)
  else update_is_sourced_tag_loop topic_id updated_tag_value s articles

/-! ## Parser lemmas: the isoformat rendering reparses to the same value -/

theorem digit_render (k : Nat) (h : k ≤ 9) :
    isDigitChar (Char.ofNat (48 + k)) = true ∧ digitVal (Char.ofNat (48 + k)) = k := by
  interval_cases k <;> exact ⟨by decide, by decide⟩

theorem parse2_render (n : Nat) (hn : n ≤ 99) (r : List Char) :
    parse2 ((pad2 n).data ++ r) = some (n, r) := by
  obtain ⟨ha1, ha2⟩ := digit_render (n / 10 % 10) (by omega)
  obtain ⟨hb1, hb2⟩ := digit_render (n % 10) (by omega)
  show parse2 (Char.ofNat (48 + n / 10 % 10) :: Char.ofNat (48 + n % 10) :: r)
    = some (n, r)
  simp only [parse2, ha1, hb1, Bool.and_self, if_true, ha2, hb2]
  have hval : n / 10 % 10 * 10 + n % 10 = n := by omega
  rw [hval]

theorem parse4_render (n : Nat) (hn : n ≤ 9999) (r : List Char) :
    parse4 ((pad4 n).data ++ r) = some (n, r) := by
  obtain ⟨ha1, ha2⟩ := digit_render (n / 1000 % 10) (by omega)
  obtain ⟨hb1, hb2⟩ := digit_render (n / 100 % 10) (by omega)
  obtain ⟨hc1, hc2⟩ := digit_render (n / 10 % 10) (by omega)
  obtain ⟨he1, he2⟩ := digit_render (n % 10) (by omega)
  show parse4 (Char.ofNat (48 + n / 1000 % 10) :: Char.ofNat (48 + n / 100 % 10)
      :: Char.ofNat (48 + n / 10 % 10) :: Char.ofNat (48 + n % 10) :: r) = some (n, r)
  simp only [parse4, ha1, hb1, hc1, he1, Bool.and_self, if_true, ha2, hb2, hc2, he2]
  have hval : n / 1000 % 10 * 1000 + n / 100 % 10 * 100 + n / 10 % 10 * 10 + n % 10 = n := by
    omega
  rw [hval]

theorem parseYMD_render (y mo d : Nat) (hy : y ≤ 9999) (hmo : mo ≤ 99) (hd : d ≤ 99)
    (r : List Char) :
    parseYMD ((pad4 y).data ++ '-' :: (pad2 mo).data ++ '-' :: (pad2 d).data ++ r)
      = some (y, mo, d, r) := by
  simp [parseYMD, parse4_render y hy, expectChar, parse2_render mo hmo, parse2_render d hd]

theorem parseTimeRP_render (h mi s : Nat) (hh : h ≤ 99) (hmi : mi ≤ 99) (hs : s ≤ 99)
    (r : List Char) :
    parseTimeRP ((pad2 h).data ++ ':' :: (pad2 mi).data ++ ':' :: (pad2 s).data ++ r)
      = some (h, mi, s, r) := by
  simp [parseTimeRP, parse2_render h hh, parse2_render mi hmi, parse2_render s hs]

theorem daysInMonth_le (y m : Nat) : daysInMonth y m ≤ 31 := by
  unfold daysInMonth
  split
  · split <;> omega
  · split <;> omega

theorem parseIsoChars_render (y mo d h mi s : Nat)
    (hy : y ≤ 9999) (hmo : mo ≤ 99) (hd : d ≤ 99)
    (hh : h ≤ 99) (hmi : mi ≤ 99) (hs : s ≤ 99)
    (hv : validDateTime y mo d h mi s = true) :
    parseIsoChars ((pad4 y).data ++ '-' :: (pad2 mo).data ++ '-' :: (pad2 d).data
        ++ 'T' :: (pad2 h).data ++ ':' :: (pad2 mi).data ++ ':' :: (pad2 s).data
        ++ ['+', '0', '0', ':', '0', '0'])
      = some ⟨y, mo, d, h, mi, s⟩ := by
  have h1 := parseYMD_render y mo d hy hmo hd
    ('T' :: (pad2 h).data ++ ':' :: (pad2 mi).data ++ ':' :: (pad2 s).data
      ++ ['+', '0', '0', ':', '0', '0'])
  have h2 := parseTimeRP_render h mi s hh hmi hs ['+', '0', '0', ':', '0', '0']
  simp only [List.append_assoc, List.cons_append] at h1 h2
  simp [parseIsoChars, h1, h2, hv]

theorem pydatetime_isoformat_data (y mo d h mi s : Nat) :
    (pydatetime_isoformat ⟨y, mo, d, h, mi, s⟩).data
      = (pad4 y).data ++ '-' :: (pad2 mo).data ++ '-' :: (pad2 d).data
        ++ 'T' :: (pad2 h).data ++ ':' :: (pad2 mi).data ++ ':' :: (pad2 s).data
        ++ ['+', '0', '0', ':', '0', '0'] := by
  have hdash : ("-" : String).data = ['-'] := rfl
  have hT : ("T" : String).data = ['T'] := rfl
  have hcolon : (":" : String).data = [':'] := rfl
  have hoff : ("+00:00" : String).data = ['+', '0', '0', ':', '0', '0'] := rfl
  simp [pydatetime_isoformat, String.data_append, hdash, hT, hcolon, hoff]

theorem pydatetime_isoformat_reparse (dt : PyDateTime)
    (hv : validDateTime dt.year dt.month dt.day dt.hour dt.minute dt.second = true) :
    datetime_fromisoformat (pydatetime_isoformat dt) = some dt := by
  obtain ⟨y, mo, d, h, mi, s⟩ := dt
  have hb := hv
  simp only [validDateTime, Bool.and_eq_true, decide_eq_true_eq] at hb
  have hdm := daysInMonth_le y mo
  show parseIsoChars (pydatetime_isoformat ⟨y, mo, d, h, mi, s⟩).data
    = some ⟨y, mo, d, h, mi, s⟩
  rw [pydatetime_isoformat_data]
  exact parseIsoChars_render y mo d h mi s (by omega) (by omega) (by omega)
    (by omega) (by omega) (by omega) hv

theorem parseIsoChars_valid (l : List Char) (dt : PyDateTime)
    (hp : parseIsoChars l = some dt) :
    validDateTime dt.year dt.month dt.day dt.hour dt.minute dt.second = true := by
  simp only [parseIsoChars] at hp
  cases hymd : parseYMD l with
  | none => rw [hymd] at hp; simp at hp
  | some p =>
    obtain ⟨y, mo, d, l1⟩ := p
    rw [hymd] at hp
    simp only at hp
    cases l1 with
    | nil => simp at hp
    | cons sep l2 =>
      simp only at hp
      cases htime : parseTimeRP l2 with
      | none => rw [htime] at hp; simp at hp
      | some q =>
        obtain ⟨h, mi, s, l3⟩ := q
        rw [htime] at hp
        simp only at hp
        by_cases h3 : l3 = ['+', '0', '0', ':', '0', '0']
        · rw [if_pos h3] at hp
          by_cases hvv : validDateTime y mo d h mi s = true
          · rw [if_pos hvv] at hp
            obtain rfl := Option.some.inj hp
            exact hvv
          · rw [if_neg hvv] at hp
            exact absurd hp (by simp)
        · rw [if_neg h3] at hp
          exact absurd hp (by simp)

/-! ## Shared concrete sample data -/

/-- A minimal valid article used in concrete instances. -/
def sampleArticle (id u dt : String) : RawArticle :=
  { article_id := id, aggregator_id := "agg1", dt_published := dt,
    aggregation_index := 0, topic_id := "topic1", topic := "some topic",
    title := "a title", url := u, article_data := "data", sorting := "Relevance" }

def sampleDtA : String := "2023-04-11T21:02:39+00:00"

def sampleDtB : String := "2023-05-12T08:30:00+00:00"

/-! ## C5: overwrite semantics of the object-store put -/

/-- C5: an overwrite-disallowed put raises AlreadyExists exactly when the key
is occupied, and on that failure the bucket — hence the existing object's
body, metadata and tags — is unchanged; an overwrite-allowed put always
succeeds, after which the key holds exactly the new body, metadata and
tags. -/
theorem c5_store_object_overwrite_semantics (s : S3State) (k b : String)
    (t m : List (String × String)) (b2 : String) (t2 m2 : List (String × String)) :
    ((store_object_in_s3 s k b t m false).2 = some .s3ObjectAlreadyExists
        ↔ object_exists s k = true)
    ∧ (object_exists s k = true → (store_object_in_s3 s k b t m false).1 = s)
    ∧ (store_object_in_s3 s k b2 t2 m2 true).2 = none
    ∧ dictGet (store_object_in_s3 s k b2 t2 m2 true).1 k = some ⟨b2, m2, t2⟩ := by
  unfold store_object_in_s3
  cases he : object_exists s k
  · simp [he, dictGet_dictSet_same]
  · simp [he, dictGet_dictSet_same]

/-- Witness for C5 at a concrete occupied key and a concrete second write. -/
theorem c5_store_object_overwrite_semantics_witness :
    (store_object_in_s3 [("k", ⟨"b1", [], []⟩)] "k" "b" [] [] false).2
        = some .s3ObjectAlreadyExists
    ∧ (store_object_in_s3 [("k", ⟨"b1", [], []⟩)] "k" "b" [] [] false).1
        = [("k", ⟨"b1", [], []⟩)]
    ∧ dictGet (store_object_in_s3 [("k", ⟨"b1", [], []⟩)] "k" "b2"
        [("t", "1")] [("m", "1")] true).1 "k"
        = some ⟨"b2", [("m", "1")], [("t", "1")]⟩ := by
  have h := c5_store_object_overwrite_semantics [("k", ⟨"b1", [], []⟩)] "k" "b" [] []
    "b2" [("t", "1")] [("m", "1")]
  exact ⟨h.1.mpr (by decide), h.2.1 (by decide), h.2.2.2⟩

/-! ## C2: success-marker metadata accumulation -/

theorem store_success_file_get (s : S3State) (pfx fn now : String)
    (md : List (String × String)) :
    get_success_file (store_success_file s pfx fn now md) pfx fn = some (now, md, []) := by
  unfold get_success_file store_success_file store_object_in_s3 get_object
  simp [dictGet_dictSet_same]

/-- C2: under the (spec-modelled) Repository accumulation policy, marking a
prefix whose marker already carries the comma-joined fields appends the new
aggregator id and timestamp rather than replacing them; marking a fresh
prefix from aggregator "A" (with timestamp dtA) and then aggregator "B"
leaves marker metadata with aggregators = "A,B" and aggregators_dt =
"dtA,dtB". -/
theorem c2_success_marker_metadata_accumulates (s : S3State)
    (pfx fn idA dtA nowA idB dtB nowB : String)
    (hfresh : get_success_file s pfx fn = none) :
    (∀ s' b md tg prevA prevD id dt now,
        get_success_file s' pfx fn = some (b, md, tg) →
        dictGet md "aggregators" = some prevA →
        dictGet md "aggregators_dt" = some prevD →
        (get_success_file (mark_complete_accumulating s' pfx fn id dt now) pfx fn).map
            (fun r => (dictGet r.2.1 "aggregators", dictGet r.2.1 "aggregators_dt"))
          = some (some (prevA ++ "," ++ id), some (prevD ++ "," ++ dt)))
    ∧ (get_success_file
          (mark_complete_accumulating
            (mark_complete_accumulating s pfx fn idA dtA nowA) pfx fn idB dtB nowB)
          pfx fn).map
        (fun r => (dictGet r.2.1 "aggregators", dictGet r.2.1 "aggregators_dt"))
      = some (some (idA ++ "," ++ idB), some (dtA ++ "," ++ dtB)) := by
  have hne : ("aggregators" : String) ≠ "aggregators_dt" := by decide
  have step : ∀ s' id dt now b md tg, get_success_file s' pfx fn = some (b, md, tg) →
      dictGet md "aggregators" ≠ none → dictGet md "aggregators_dt" ≠ none →
      get_success_file (mark_complete_accumulating s' pfx fn id dt now) pfx fn
        = some (now,
            [("aggregators", ((dictGet md "aggregators").getD "") ++ "," ++ id),
             ("aggregators_dt", ((dictGet md "aggregators_dt").getD "") ++ "," ++ dt)],
            []) := by
    intro s' id dt now b md tg hget hA hD
    unfold mark_complete_accumulating
    rw [hget]
    cases hA' : dictGet md "aggregators" with
    | none => exact absurd hA' hA
    | some prevA =>
      cases hD' : dictGet md "aggregators_dt" with
      | none => exact absurd hD' hD
      | some prevD =>
        simp only [store_success_file_get, hA', hD', Option.getD_some]
  constructor
  · intro s' b md tg prevA prevD id dt now hget hA hD
    rw [step s' id dt now b md tg hget (by rw [hA]; exact Option.noConfusion)
      (by rw [hD]; exact Option.noConfusion)]
    simp [dictGet, hne, hA, hD]
  · have h1 : get_success_file (mark_complete_accumulating s pfx fn idA dtA nowA) pfx fn
        = some (nowA, [("aggregators", idA), ("aggregators_dt", dtA)], []) := by
      unfold mark_complete_accumulating
      rw [hfresh]
      exact store_success_file_get s pfx fn nowA _
    rw [step _ idB dtB nowB _ _ _ h1 (by simp [dictGet]) (by simp [dictGet, hne])]
    simp [dictGet, hne]

/-- Witness for C2 starting from an empty bucket. -/
theorem c2_success_marker_metadata_accumulates_witness :
    (get_success_file
        (mark_complete_accumulating
          (mark_complete_accumulating [] "p" "__SUCCESS__" "A" "dt1" "now1")
          "p" "__SUCCESS__" "B" "dt2" "now2")
        "p" "__SUCCESS__").map
      (fun r => (dictGet r.2.1 "aggregators", dictGet r.2.1 "aggregators_dt"))
    = some (some ("A" ++ "," ++ "B"), some ("dt1" ++ "," ++ "dt2")) :=
  (c2_success_marker_metadata_accumulates [] "p" "__SUCCESS__"
    "A" "dt1" "now1" "B" "dt2" "now2" rfl).2

/-! ## C10: missing tag key raises KeyError in load_articles -/

/-- C10: with a non-empty tag filter, a listed article whose tags lack the
filter key makes load_articles raise an (untyped) KeyError — the lookup
`object_tags[tag_filter_key]` fails — instead of the article being dropped
or included. -/
theorem c10_load_articles_missing_tag_key_raises :
    load_articles "is_sourced_article" "True"
      [⟨"k1", sampleArticle "a1" "u1" sampleDtA, [], [("is_sourced_article", "True")]⟩,
       ⟨"k2", sampleArticle "a2" "u2" sampleDtA, [], [("other", "x")]⟩]
      = .error .keyError := by
  rfl

/-! ## C1: store_embeddings batch alignment -/

/-- Alignment of one zipped (article, embedding) pair: matching ids and a
parseable published date. -/
def goodPair (p : RawArticle × RawArticleEmbedding) : Prop :=
  p.1.article_id = p.2.article_id ∧ (datetime_fromisoformat p.1.dt_published).isSome = true

instance (p : RawArticle × RawArticleEmbedding) : Decidable (goodPair p) := by
  unfold goodPair
  infer_instance

theorem store_embeddings_loop_append (topic : String)
    (pre rest : List (RawArticle × RawArticleEmbedding))
    (hpre : ∀ p ∈ pre, goodPair p) :
    ∀ pfxs calls, ∃ pfxs' calls',
      store_embeddings_loop topic (pre ++ rest) pfxs calls
          = store_embeddings_loop topic rest pfxs' calls'
        ∧ calls'.length = calls.length + pre.length := by
  induction pre with
  | nil => exact fun pfxs calls => ⟨pfxs, calls, rfl, by simp⟩
  | cons p pre ih =>
    intro pfxs calls
    obtain ⟨a, e⟩ := p
    obtain ⟨hid, hiso⟩ := hpre (a, e) (List.mem_cons_self _ _)
    obtain ⟨d, hd⟩ := Option.isSome_iff_exists.mp hiso
    simp only [List.cons_append, store_embeddings_loop]
    rw [if_neg (fun hcon => hcon hid), hd]
    simp only
    obtain ⟨pfxs', calls', heq, hlen⟩ :=
      ih (fun q hq => hpre q (List.mem_cons_of_mem _ hq))
        (setAdd pfxs (raw_candidate_embeddings_s3_object_pfx topic
          (dt_to_lexicographic_date_s3_pfx d)))
        (calls ++ [⟨raw_candidate_embeddings_s3_object_pfx topic
            (dt_to_lexicographic_date_s3_pfx d) ++ "/" ++ a.article_id ++ ".json",
          raw_article_embedding_json e, [], [], true⟩])
    refine ⟨pfxs', calls', heq, ?_⟩
    rw [hlen]
    simp [Nat.add_assoc, Nat.add_comm 1]

/-- C1 (amended): `_store_embeddings_in_s3` zips the two batches, so extra
items of the longer batch are silently ignored and a fully aligned zipped
batch stores one embedding per zipped pair with no error; the positional
article_id check runs inside the write loop, so a first mismatch at zip
position i raises ValueError only after the store calls for the i earlier
positions have been issued. -/
theorem c1_store_embeddings_zip_semantics (topic : String)
    (arts : List RawArticle) (embs : List RawArticleEmbedding) :
    ((∀ p ∈ arts.zip embs, goodPair p) →
        ∃ pfxs calls, store_embeddings_in_s3 topic arts embs = (pfxs, calls, none)
          ∧ calls.length = min arts.length embs.length)
    ∧ (∀ pre a e post,
        arts.zip embs = pre ++ (a, e) :: post →
        (∀ p ∈ pre, goodPair p) →
        a.article_id ≠ e.article_id →
        ∃ pfxs calls,
          store_embeddings_in_s3 topic arts embs = (pfxs, calls, some .valueError)
            ∧ calls.length = pre.length) := by
  constructor
  · intro hall
    obtain ⟨pfxs', calls', heq, hlen⟩ :=
      store_embeddings_loop_append topic (arts.zip embs) [] hall [] []
    refine ⟨pfxs', calls', ?_, ?_⟩
    · unfold store_embeddings_in_s3
      rw [List.append_nil] at heq
      rw [heq]
      rfl
    · rw [hlen]
      simp [List.length_zip]
  · intro pre a e post hsplit hpre hmis
    obtain ⟨pfxs', calls', heq, hlen⟩ :=
      store_embeddings_loop_append topic pre ((a, e) :: post) hpre [] []
    refine ⟨pfxs', calls', ?_, ?_⟩
    · unfold store_embeddings_in_s3
      rw [hsplit, heq]
      simp only [store_embeddings_loop]
      rw [if_pos hmis]
    · rw [hlen]
      simp

def c1ArticleA : RawArticle := sampleArticle "a1" "u1" sampleDtA

def c1ArticleB : RawArticle := sampleArticle "a2" "u2" sampleDtB

def c1EmbA : RawArticleEmbedding := ⟨"a1", "title", "model-m", []⟩

def c1EmbBad : RawArticleEmbedding := ⟨"zz", "title", "model-m", []⟩

/-- C1 counterexample: a call with batches of unequal length raises no error
at all (zip truncation), and a call with a positional article_id mismatch
at index 1 raises ValueError only after the store call for index 0 was
already issued — refuting "raises and no store call is issued before the
failure". -/
theorem c1_store_embeddings_claim_counterexample :
    (store_embeddings_in_s3 "topic1" [c1ArticleA] []).2.2 = none
    ∧ (store_embeddings_in_s3 "topic1" [c1ArticleA, c1ArticleB]
        [c1EmbA, c1EmbBad]).2.2 = some .valueError
    ∧ (store_embeddings_in_s3 "topic1" [c1ArticleA, c1ArticleB]
        [c1EmbA, c1EmbBad]).2.1.length = 1 :=
  ⟨rfl, rfl, rfl⟩

/-- Witness for C1 (amended) at the concrete mismatching batch. -/
theorem c1_store_embeddings_zip_semantics_witness :
    ∃ pfxs calls,
      store_embeddings_in_s3 "topic1" [c1ArticleA, c1ArticleB] [c1EmbA, c1EmbBad]
          = (pfxs, calls, some .valueError)
        ∧ calls.length = 1 := by
  have h := (c1_store_embeddings_zip_semantics "topic1" [c1ArticleA, c1ArticleB]
      [c1EmbA, c1EmbBad]).2 [(c1ArticleA, c1EmbA)] c1ArticleB c1EmbBad [] rfl
      (by decide) (by decide)
  simpa using h

/-! ## C3: the processed-data cache holds the popped maintext, not the dict -/

def c3Extraction : NewsPleaseArticle :=
  ⟨"the article body text", "the description", [("title", "T"), ("url", "u1")]⟩

def c3Article : RawArticle := sampleArticle "a1" "u1" sampleDtA

/-- C3: at this concrete successful extraction, the enrichment caches as
article_processed_data the JSON serialization of the main text string
itself — Python's `dict.pop` returns the popped value, not the remaining
dict — and not the serialization of the extraction dict with the main text
excluded; the main text itself does land in article_full_text. -/
theorem c3_processed_data_is_maintext_not_dict :
    (process_article_data (fun _ => "example.com") (some c3Extraction)
        c3Article).article_full_text = "the article body text"
    ∧ (process_article_data (fun _ => "example.com") (some c3Extraction)
        c3Article).article_processed_data = json_dumps_string "the article body text"
    ∧ (process_article_data (fun _ => "example.com") (some c3Extraction)
        c3Article).article_processed_data ≠ json_dumps_dict c3Extraction.other_fields :=
  ⟨rfl, rfl, by decide⟩

/-! ## C4: write-once behaviour of the enrichment fields -/

theorem json_dumps_string_ne_empty (v : String) : json_dumps_string v ≠ "" := by
  unfold json_dumps_string
  intro hcon
  have hdata := congrArg String.data hcon
  simp [String.data_append] at hdata

theorem process_article_data_processed_set (ext : String → String)
    (f : Option NewsPleaseArticle) (a : RawArticle)
    (h : a.article_processed_data ≠ "") : process_article_data ext f a = a := by
  unfold process_article_data
  rw [if_pos h]

theorem article_call_step_processed_set (ext : String → String)
    (f : Option NewsPleaseArticle) (c : ArticleCall) (a : RawArticle)
    (h : a.article_processed_data ≠ "") : article_call_step ext f c a = a := by
  cases c
  · exact process_article_data_processed_set ext f a h
  · show (if a.article_full_text = "" then process_article_data ext f a else a) = a
    by_cases hf : a.article_full_text = ""
    · rw [if_pos hf]
      exact process_article_data_processed_set ext f a h
    · rw [if_neg hf]
  · show (if a.article_text_description = "" then process_article_data ext f a else a) = a
    by_cases hf : a.article_text_description = ""
    · rw [if_pos hf]
      exact process_article_data_processed_set ext f a h
    · rw [if_neg hf]

theorem run_article_calls_processed_set (ext : String → String)
    (l : List (ArticleCall × Option NewsPleaseArticle)) (a : RawArticle)
    (h : a.article_processed_data ≠ "") : run_article_calls ext l a = a := by
  induction l with
  | nil => rfl
  | cons p rest ih =>
    obtain ⟨c, f⟩ := p
    show run_article_calls ext rest (article_call_step ext f c a) = a
    rw [article_call_step_processed_set ext f c a h]
    exact ih

theorem process_article_data_textInv (ext : String → String)
    (f : Option NewsPleaseArticle) (a : RawArticle)
    (h : a.article_full_text = "" ∨ a.article_processed_data ≠ "") :
    (process_article_data ext f a).article_full_text = ""
      ∨ (process_article_data ext f a).article_processed_data ≠ "" := by
  by_cases hp : a.article_processed_data ≠ ""
  · rw [process_article_data_processed_set ext f a hp]
    exact Or.inr hp
  · have hfull : a.article_full_text = "" := by
      rcases h with h | h
      · exact h
      · exact absurd h hp
    unfold process_article_data
    rw [if_neg hp]
    cases f with
    | none =>
      simp only
      left
      by_cases hpd : a.provider_domain = "" <;> simp [hpd, hfull]
    | some art =>
      simp only
      by_cases hmt : art.maintext = ""
      · rw [if_pos hmt]
        left
        by_cases hpd : a.provider_domain = "" <;> simp [hpd, hfull]
      · rw [if_neg hmt]
        simp only [get_serializable_dict, dictPop, if_pos rfl]
        right
        by_cases hpd : a.provider_domain = "" <;>
          by_cases hds : a.article_text_description = "" <;>
            simp [hpd, hds, json_dumps_string_ne_empty]

theorem article_call_step_textInv (ext : String → String)
    (f : Option NewsPleaseArticle) (c : ArticleCall) (a : RawArticle)
    (h : a.article_full_text = "" ∨ a.article_processed_data ≠ "") :
    (article_call_step ext f c a).article_full_text = ""
      ∨ (article_call_step ext f c a).article_processed_data ≠ "" := by
  cases c
  · exact process_article_data_textInv ext f a h
  · simp only [article_call_step]
    by_cases hf : a.article_full_text = ""
    · rw [if_pos hf]
      exact process_article_data_textInv ext f a h
    · rw [if_neg hf]
      exact h
  · simp only [article_call_step]
    by_cases hf : a.article_text_description = ""
    · rw [if_pos hf]
      exact process_article_data_textInv ext f a h
    · rw [if_neg hf]
      exact h

theorem run_article_calls_textInv (ext : String → String)
    (l : List (ArticleCall × Option NewsPleaseArticle)) (a : RawArticle)
    (h : a.article_full_text = "" ∨ a.article_processed_data ≠ "") :
    (run_article_calls ext l a).article_full_text = ""
      ∨ (run_article_calls ext l a).article_processed_data ≠ "" := by
  induction l generalizing a with
  | nil => exact h
  | cons p rest ih =>
    obtain ⟨c, f⟩ := p
    exact ih (article_call_step ext f c a) (article_call_step_textInv ext f c a h)

/-- C4 (amended): article_processed_data is populated at most once — once it
is non-empty no later call modifies the article at all; and provided the
article starts with an empty article_full_text (or with its processed data
already set), article_full_text, once non-empty, is never changed by any
later call. An article constructed with a non-empty article_full_text but
empty article_processed_data is the single exception: one later enrichment
call may overwrite its full text. -/
theorem c4_text_fields_write_once (ext : String → String) (a0 : RawArticle)
    (h0 : a0.article_full_text = "" ∨ a0.article_processed_data ≠ "")
    (l1 l2 : List (ArticleCall × Option NewsPleaseArticle)) :
    ((run_article_calls ext l1 a0).article_processed_data ≠ "" →
        run_article_calls ext l2 (run_article_calls ext l1 a0)
          = run_article_calls ext l1 a0)
    ∧ ((run_article_calls ext l1 a0).article_full_text ≠ "" →
        (run_article_calls ext l2 (run_article_calls ext l1 a0)).article_full_text
          = (run_article_calls ext l1 a0).article_full_text) := by
  constructor
  · exact fun hp => run_article_calls_processed_set ext l2 _ hp
  · intro hf
    rcases run_article_calls_textInv ext l1 a0 h0 with hempty | hproc
    · exact absurd hempty hf
    · rw [run_article_calls_processed_set ext l2 _ hproc]

def c4PrefilledArticle : RawArticle :=
  { sampleArticle "a1" "u1" sampleDtA with article_full_text := "original full text" }

/-- C4 counterexample: an article constructed with a non-empty
article_full_text and empty article_processed_data has its full text
overwritten with a different value by a single later process_article_data
call — refuting "once set to a non-empty value, never overwritten with a
different value". -/
theorem c4_full_text_overwritten_counterexample :
    c4PrefilledArticle.article_full_text = "original full text"
    ∧ (run_article_calls (fun _ => "example.com")
        [(.processArticleData, some ⟨"replacement text", "d", []⟩)]
        c4PrefilledArticle).article_full_text = "replacement text"
    ∧ ("original full text" : String) ≠ "replacement text" :=
  ⟨rfl, rfl, by decide⟩

/-- Witness for C4 (amended): a second successful enrichment leaves an
already-enriched article untouched. -/
theorem c4_text_fields_write_once_witness :
    run_article_calls (fun _ => "example.com")
        [(.processArticleData, some ⟨"second text", "d2", []⟩)]
        (run_article_calls (fun _ => "example.com")
          [(.processArticleData, some ⟨"first text", "d1", []⟩)] c3Article)
      = run_article_calls (fun _ => "example.com")
          [(.processArticleData, some ⟨"first text", "d1", []⟩)] c3Article :=
  (c4_text_fields_write_once (fun _ => "example.com") c3Article (Or.inl rfl)
    [(.processArticleData, some ⟨"first text", "d1", []⟩)]
    [(.processArticleData, some ⟨"second text", "d2", []⟩)]).1 (by decide)

/-! ## C9: standardize_published_date -/

/-- C9 counterexample: with the all-accepting matcher (the compiled regex
".*") the input "notadate" matches, yet standardize_published_date still
raises PublishedDateInvalidFormat — refuting "raises if and only if the
input fails to match the regex". -/
theorem c9_match_does_not_imply_success :
    (fun _ : String => true) "notadate" = true
    ∧ standardize_published_date (fun _ : String => true) "notadate"
        = .error .publishedDateInvalidFormat :=
  ⟨rfl, rfl⟩

/-- C9 (amended): standardize_published_date raises
PublishedDateInvalidFormat whenever the input fails to match the regex,
but a matching input may also raise — the try-block parse of the
non-fractional prefix (the part before the first dot) suffixed with
"+00:00" can itself fail; when that parse succeeds — the dot-free prefix
being a zero-padded date, a separator and an hour/minute/second-precision
time — the call returns the parsed datetime's isoformat rendering: an
ISO-8601 UTC string at exactly seconds precision (omitted time components
zero-filled, fractional seconds stripped, "+00:00" offset) that reparses
to the same datetime. -/
theorem c9_standardize_published_date_semantics (m : String → Bool) (s : String) :
    (m s = false → standardize_published_date m s = .error .publishedDateInvalidFormat)
    ∧ (∀ dt, m s = true →
        datetime_fromisoformat (splitDotHead s ++ "+00:00") = some dt →
        standardize_published_date m s = .ok (pydatetime_isoformat dt)
          ∧ datetime_fromisoformat (pydatetime_isoformat dt) = some dt)
    ∧ (∀ out, standardize_published_date m s = .ok out →
        m s = true
          ∧ ∃ dt, datetime_fromisoformat (splitDotHead s ++ "+00:00") = some dt
              ∧ out = pydatetime_isoformat dt
              ∧ datetime_fromisoformat out = some dt) := by
  refine ⟨?_, ?_, ?_⟩
  · intro hm
    unfold standardize_published_date
    rw [hm]
    rfl
  · intro dt hm hdt
    unfold standardize_published_date
    rw [hm]
    simp only [if_true, hdt]
    exact ⟨trivial, pydatetime_isoformat_reparse dt (parseIsoChars_valid _ dt hdt)⟩
  · intro out hout
    unfold standardize_published_date at hout
    by_cases hm : m s = true
    · rw [hm] at hout
      simp only [if_true] at hout
      cases hdt : datetime_fromisoformat (splitDotHead s ++ "+00:00") with
      | none => rw [hdt] at hout; exact absurd hout (by simp)
      | some d =>
        rw [hdt] at hout
        simp only [Except.ok.injEq] at hout
        refine ⟨hm, d, rfl, hout.symm, ?_⟩
        rw [← hout]
        exact pydatetime_isoformat_reparse d (parseIsoChars_valid _ d hdt)
    · rw [Bool.not_eq_true] at hm
      rw [hm] at hout
      exact absurd hout (by simp)

/-- Witness for C9 (amended) at a Bing-style fractional timestamp and at a
reduced-precision (minutes-only) timestamp. -/
theorem c9_standardize_published_date_semantics_witness :
    standardize_published_date (fun _ : String => true)
        "2021-04-11T21:02:39.0004166" = .ok "2021-04-11T21:02:39+00:00"
    ∧ standardize_published_date (fun _ : String => true)
        "2023-04-11T21:02" = .ok "2023-04-11T21:02:00+00:00"
    ∧ datetime_fromisoformat "2023-04-11T21:02:00+00:00"
        = some ⟨2023, 4, 11, 21, 2, 0⟩ := by
  refine ⟨?_, ?_, ?_⟩
  · exact ((c9_standardize_published_date_semantics (fun _ : String => true)
      "2021-04-11T21:02:39.0004166").2.1 ⟨2021, 4, 11, 21, 2, 39⟩ rfl (by rfl)).1
  · exact ((c9_standardize_published_date_semantics (fun _ : String => true)
      "2023-04-11T21:02").2.1 ⟨2023, 4, 11, 21, 2, 0⟩ rfl (by rfl)).1
  · exact ((c9_standardize_published_date_semantics (fun _ : String => true)
      "2023-04-11T21:02").2.1 ⟨2023, 4, 11, 21, 2, 0⟩ rfl (by rfl)).2

/-! ## C6 and C7: load_articles dedup and tag filtering -/

/-- First-occurrence dedup by url relative to an already-seen url set: the
structural content of the load loop when no tag filter is given. -/
def dedupByUrl (seen : List String) :
    List LoadedEntry → List (RawArticle × List (String × String) × List (String × String))
  | [] => []
  | e :: rest =>
    if e.article.url ∈ seen then dedupByUrl seen rest
    else toTriple e :: dedupByUrl (e.article.url :: seen) rest

theorem load_articles_loop_no_filter (seen : List String) (l : List LoadedEntry) :
    load_articles_loop "" "" seen l = .ok (dedupByUrl seen l) := by
  induction l generalizing seen with
  | nil => rfl
  | cons e rest ih =>
    simp only [load_articles_loop, dedupByUrl]
    rw [if_neg (by simp)]
    by_cases hu : e.article.url ∈ seen
    · rw [if_pos hu, if_pos hu]
      exact ih seen
    · rw [if_neg hu, if_neg hu, ih]
      rfl

theorem dedupByUrl_sublist (seen : List String) (l : List LoadedEntry) :
    (dedupByUrl seen l).Sublist (l.map toTriple) := by
  induction l generalizing seen with
  | nil => simp [dedupByUrl]
  | cons e rest ih =>
    simp only [dedupByUrl, List.map_cons]
    by_cases hu : e.article.url ∈ seen
    · rw [if_pos hu]
      exact (ih seen).cons _
    · rw [if_neg hu]
      exact (ih _).cons₂ _

theorem dedupByUrl_urls_nodup (seen : List String) (l : List LoadedEntry) :
    ((dedupByUrl seen l).map (fun t => t.1.url)).Nodup
    ∧ ∀ t ∈ dedupByUrl seen l, t.1.url ∉ seen := by
  induction l generalizing seen with
  | nil => exact ⟨List.nodup_nil, by simp [dedupByUrl]⟩
  | cons e rest ih =>
    by_cases hu : e.article.url ∈ seen
    · simp only [dedupByUrl, if_pos hu]
      exact ih seen
    · simp only [dedupByUrl, if_neg hu, List.map_cons]
      obtain ⟨ihn, ihs⟩ := ih (e.article.url :: seen)
      refine ⟨?_, ?_⟩
      · rw [List.nodup_cons]
        refine ⟨?_, ihn⟩
        intro hmem
        obtain ⟨t, ht, hturl⟩ := List.mem_map.mp hmem
        have hnotin := ihs t ht
        rw [hturl] at hnotin
        exact hnotin (List.mem_cons_self _ _)
      · intro t ht
        rcases List.mem_cons.mp ht with h1 | h2
        · rw [h1]
          exact hu
        · exact fun hseen => ihs t h2 (List.mem_cons_of_mem _ hseen)

theorem dedupByUrl_covers (seen : List String) (l : List LoadedEntry)
    (x : LoadedEntry) (hx : x ∈ l) (hxs : x.article.url ∉ seen) :
    ∃ y, l.find? (fun z => z.article.url == x.article.url) = some y
      ∧ toTriple y ∈ dedupByUrl seen l := by
  induction l generalizing seen with
  | nil => exact absurd hx (List.not_mem_nil x)
  | cons e rest ih =>
    by_cases hurl : e.article.url = x.article.url
    · refine ⟨e, List.find?_cons_of_pos _ (by simp [hurl]), ?_⟩
      have hes : e.article.url ∉ seen := by
        rw [hurl]
        exact hxs
      simp only [dedupByUrl, if_neg hes]
      exact List.mem_cons_self _ _
    · have hfind : List.find? (fun z => z.article.url == x.article.url) (e :: rest)
          = List.find? (fun z => z.article.url == x.article.url) rest :=
        List.find?_cons_of_neg _ (by simp [hurl])
      have hxrest : x ∈ rest := by
        rcases List.mem_cons.mp hx with h1 | h2
        · subst h1
          exact absurd rfl hurl
        · exact h2
      by_cases hes : e.article.url ∈ seen
      · simp only [dedupByUrl, if_pos hes]
        obtain ⟨y, hy, hmem⟩ := ih seen hxrest hxs
        exact ⟨y, by rw [hfind]; exact hy, hmem⟩
      · simp only [dedupByUrl, if_neg hes]
        have hxs' : x.article.url ∉ e.article.url :: seen := by
          intro hc
          rcases List.mem_cons.mp hc with h1 | h2
          · exact hurl h1.symm
          · exact hxs h2
        obtain ⟨y, hy, hmem⟩ := ih (e.article.url :: seen) hxrest hxs'
        exact ⟨y, by rw [hfind]; exact hy, List.mem_cons_of_mem _ hmem⟩

/-- C6: a load_articles call with no tag filter succeeds and returns the
listed articles deduplicated by url: the result is a sublist of the listing
(so the surviving articles keep the listing order), its urls are pairwise
distinct, and every listed article is represented in the result by exactly
the first listed article carrying its url — every later article whose url
was already seen is dropped. -/
theorem c6_load_articles_dedups_by_url (entries : List LoadedEntry) :
    ∃ res, load_articles "" "" entries = .ok res
      ∧ res.Sublist (entries.map toTriple)
      ∧ (res.map (fun t => t.1.url)).Nodup
      ∧ ∀ x ∈ entries, ∃ y,
          entries.find? (fun z => z.article.url == x.article.url) = some y
          ∧ toTriple y ∈ res := by
  refine ⟨dedupByUrl [] entries, load_articles_loop_no_filter [] entries,
    dedupByUrl_sublist [] entries, (dedupByUrl_urls_nodup [] entries).1, ?_⟩
  intro x hx
  exact dedupByUrl_covers [] entries x hx (List.not_mem_nil _)

def c6Entries : List LoadedEntry :=
  [⟨"k1", sampleArticle "a1" "dup-url" sampleDtA, [], []⟩,
   ⟨"k2", sampleArticle "a2" "dup-url" sampleDtA, [], []⟩,
   ⟨"k3", sampleArticle "a3" "u3" sampleDtA, [], []⟩]

/-- Witness for C6 at a concrete listing with a duplicated url. -/
theorem c6_load_articles_dedups_by_url_witness :
    ∃ res, load_articles "" "" c6Entries = .ok res
      ∧ res.Sublist (c6Entries.map toTriple)
      ∧ (res.map (fun t => t.1.url)).Nodup
      ∧ ∀ x ∈ c6Entries, ∃ y,
          c6Entries.find? (fun z => z.article.url == x.article.url) = some y
          ∧ toTriple y ∈ res :=
  c6_load_articles_dedups_by_url c6Entries

theorem dedupByUrl_nodup_eq (seen : List String) (l : List LoadedEntry)
    (hnodup : (l.map (fun e => e.article.url)).Nodup)
    (hseen : ∀ e ∈ l, e.article.url ∉ seen) :
    dedupByUrl seen l = l.map toTriple := by
  induction l generalizing seen with
  | nil => rfl
  | cons e rest ih =>
    have hu : e.article.url ∉ seen := hseen e (List.mem_cons_self _ _)
    simp only [dedupByUrl, if_neg hu, List.map_cons]
    rw [List.map_cons, List.nodup_cons] at hnodup
    refine congrArg _ (ih (e.article.url :: seen) hnodup.2 ?_)
    intro e' he' hc
    rcases List.mem_cons.mp hc with h1 | h2
    · exact hnodup.1 (List.mem_map.mpr ⟨e', he', h1⟩)
    · exact hseen e' (List.mem_cons_of_mem _ he') h2

theorem load_articles_loop_filter (k v : String) (hk : k ≠ "") (hv : v ≠ "")
    (l : List LoadedEntry) :
    ∀ seen : List String,
      (∀ e ∈ l, (dictGet e.tags k).isSome = true) →
      ((l.map (fun e => e.article.url)).Nodup) →
      (∀ e ∈ l, e.article.url ∉ seen) →
      load_articles_loop k v seen l
        = .ok ((l.filter (fun e => dictGet e.tags k == some v)).map toTriple) := by
  induction l with
  | nil => intro seen _ _ _; rfl
  | cons e rest ih =>
    intro seen hkeys hnodup hseen
    obtain ⟨tv, htv⟩ := Option.isSome_iff_exists.mp (hkeys e (List.mem_cons_self _ _))
    have hnodup' : (rest.map (fun e => e.article.url)).Nodup := by
      rw [List.map_cons, List.nodup_cons] at hnodup
      exact hnodup.2
    have hhead : e.article.url ∉ (rest.map (fun e => e.article.url)) := by
      rw [List.map_cons, List.nodup_cons] at hnodup
      exact hnodup.1
    simp only [load_articles_loop, htv, List.filter_cons]
    rw [if_pos ⟨hk, hv⟩]
    by_cases hveq : tv = v
    · subst hveq
      rw [if_neg (by simp)]
      have hus : e.article.url ∉ seen := hseen e (List.mem_cons_self _ _)
      rw [if_neg hus]
      rw [ih (e.article.url :: seen)
        (fun e' he' => hkeys e' (List.mem_cons_of_mem _ he')) hnodup' ?hfresh]
      case hfresh =>
        intro e' he' hc
        rcases List.mem_cons.mp hc with h1 | h2
        · exact hhead (List.mem_map.mpr ⟨e', he', h1⟩)
        · exact hseen e' (List.mem_cons_of_mem _ he') h2
      simp [Except.map]
    · rw [if_pos hveq]
      rw [ih seen (fun e' he' => hkeys e' (List.mem_cons_of_mem _ he')) hnodup'
        (fun e' he' => hseen e' (List.mem_cons_of_mem _ he'))]
      simp [hveq]

/-- C7: with a non-empty tag filter key and value, when every listed
article's tags contain the filter key and the listed urls are pairwise
distinct (so url-dedup drops nothing and the tag-filter stage is isolated),
load_articles returns exactly the listed articles whose tag value under the
key equals the filter value, in listing order; with no filter given, no
article is excluded by tag filtering — all listed articles come back. -/
theorem c7_load_articles_tag_filter (k v : String) (entries : List LoadedEntry)
    (hk : k ≠ "") (hv : v ≠ "")
    (hkeys : ∀ e ∈ entries, (dictGet e.tags k).isSome = true)
    (hnodup : (entries.map (fun e => e.article.url)).Nodup) :
    load_articles k v entries
        = .ok ((entries.filter (fun e => dictGet e.tags k == some v)).map toTriple)
    ∧ load_articles "" "" entries = .ok (entries.map toTriple) := by
  constructor
  · exact load_articles_loop_filter k v hk hv entries [] hkeys hnodup (by simp)
  · rw [load_articles, load_articles_loop_no_filter,
      dedupByUrl_nodup_eq [] entries hnodup (by simp)]

def c7Entries : List LoadedEntry :=
  [⟨"k1", sampleArticle "a1" "u1" sampleDtA, [], [("is_sourced_article", "True")]⟩,
   ⟨"k2", sampleArticle "a2" "u2" sampleDtA, [], [("is_sourced_article", "False")]⟩,
   ⟨"k3", sampleArticle "a3" "u3" sampleDtA, [], [("is_sourced_article", "True")]⟩]

/-- Witness for C7 at a concrete listing with mixed tag values. -/
theorem c7_load_articles_tag_filter_witness :
    load_articles "is_sourced_article" "True" c7Entries
        = .ok ((c7Entries.filter
            (fun e => dictGet e.tags "is_sourced_article" == some "True")).map toTriple)
    ∧ load_articles "" "" c7Entries = .ok (c7Entries.map toTriple) :=
  c7_load_articles_tag_filter "is_sourced_article" "True" c7Entries
    (by decide) (by decide) (by decide) (by decide)

/-! ## C8: update_is_sourced_tag semantics -/

theorem update_is_sourced_tag_loop_spec (topic v : String) (arts : List RawArticle) :
    ∀ s : S3State,
      (∀ a ∈ arts, ∃ key, raw_article_s3_object_key topic a = some key
          ∧ object_exists s key = true) →
      ∃ s', update_is_sourced_tag_loop topic v s arts = (s', none)
        ∧ (∀ k, (∃ a ∈ arts, raw_article_s3_object_key topic a = some k) →
            ∃ o, dictGet s k = some o
              ∧ dictGet s' k
                  = some { o with tags := dictSet o.tags is_sourced_article_tag_key v })
        ∧ (∀ k, (¬ ∃ a ∈ arts, raw_article_s3_object_key topic a = some k) →
            dictGet s' k = dictGet s k) := by
  induction arts with
  | nil =>
    intro s _
    refine ⟨s, rfl, ?_, fun k _ => rfl⟩
    intro k hk
    obtain ⟨a, ha, _⟩ := hk
    exact absurd ha (List.not_mem_nil a)
  | cons a rest ih =>
    intro s hall
    obtain ⟨k0, hk0, hex⟩ := hall a (List.mem_cons_self _ _)
    obtain ⟨o0, ho0⟩ := Option.isSome_iff_exists.mp hex
    have htags : get_object_tags s k0 = some o0.tags := by
      rw [get_object_tags, ho0]
      rfl
    have hupd : update_object_tags s k0 (dictSet o0.tags is_sourced_article_tag_key v)
        = some (dictSet s k0
            { o0 with tags := dictSet o0.tags is_sourced_article_tag_key v }) := by
      rw [update_object_tags, ho0]
    have hall' : ∀ a' ∈ rest, ∃ key, raw_article_s3_object_key topic a' = some key
        ∧ object_exists
            (dictSet s k0 { o0 with tags := dictSet o0.tags is_sourced_article_tag_key v })
            key = true := by
      intro a' ha'
      obtain ⟨k', hk', hex'⟩ := hall a' (List.mem_cons_of_mem _ ha')
      refine ⟨k', hk', ?_⟩
      by_cases hkk : k' = k0
      · subst hkk
        unfold object_exists
        rw [dictGet_dictSet_same]
        rfl
      · unfold object_exists at hex' ⊢
        rw [dictGet_dictSet_other s k0 k' _ hkk]
        exact hex'
    obtain ⟨s', hloop, hupd', hframe⟩ :=
      ih (dictSet s k0 { o0 with tags := dictSet o0.tags is_sourced_article_tag_key v }) hall'
    refine ⟨s', ?_, ?_, ?_⟩
    · simp only [update_is_sourced_tag_loop, hk0, htags, hupd]
      exact hloop
    · intro k hk
      by_cases hkk : k = k0
      · subst hkk
        refine ⟨o0, ho0, ?_⟩
        by_cases hkrest : ∃ a' ∈ rest, raw_article_s3_object_key topic a' = some k
        · obtain ⟨o1, ho1, ho1'⟩ := hupd' k hkrest
          rw [dictGet_dictSet_same] at ho1
          have ho1eq : o1 = { o0 with tags := dictSet o0.tags is_sourced_article_tag_key v } :=
            (Option.some.inj ho1).symm
          rw [ho1', ho1eq]
          simp [dictSet_dictSet_same]
        · rw [hframe k hkrest, dictGet_dictSet_same]
      · have hkrest : ∃ a' ∈ rest, raw_article_s3_object_key topic a' = some k := by
          obtain ⟨a', ha', hka'⟩ := hk
          rcases List.mem_cons.mp ha' with h1 | h2
          · subst h1
            rw [hk0] at hka'
            exact absurd (Option.some.inj hka').symm hkk
          · exact ⟨a', h2, hka'⟩
        obtain ⟨o1, ho1, ho1'⟩ := hupd' k hkrest
        rw [dictGet_dictSet_other s k0 k _ hkk] at ho1
        exact ⟨o1, ho1, ho1'⟩
    · intro k hk
      have hkk : k ≠ k0 := by
        intro hh
        exact hk ⟨a, List.mem_cons_self _ _, by rw [hh]; exact hk0⟩
      have hkrest : ¬∃ a' ∈ rest, raw_article_s3_object_key topic a' = some k := by
        rintro ⟨a', ha', hka'⟩
        exact hk ⟨a', List.mem_cons_of_mem _ ha', hka'⟩
      rw [hframe k hkrest, dictGet_dictSet_other s k0 k _ hkk]

/-- C8: update_is_sourced_tag with a valid updated_tag_value (one of the two
sentinel strings "True"/"False") succeeds, and afterwards each targeted
article's stored tags equal its previous tags with the is_sourced_article
tag overlaid to the new value — the overlaid tag reads back as the new
value and every other tag (and every non-targeted object) is preserved
unchanged; with any other updated_tag_value the call fails validation with
ValueError before any read or write, leaving the bucket untouched. -/
theorem c8_update_is_sourced_tag_semantics (topic : String) (s : S3State)
    (arts : List RawArticle) (v : String) :
    ((v ≠ ARTICLE_SOURCED_TAGS_FLAG ∧ v ≠ ARTICLE_NOT_SOURCED_TAGS_FLAG) →
        update_s3_articles_is_sourced_tag topic s arts v = (s, some .valueError))
    ∧ ((v = ARTICLE_SOURCED_TAGS_FLAG ∨ v = ARTICLE_NOT_SOURCED_TAGS_FLAG) →
        (∀ a ∈ arts, ∃ key, raw_article_s3_object_key topic a = some key
            ∧ object_exists s key = true) →
        ∃ s', update_s3_articles_is_sourced_tag topic s arts v = (s', none)
          ∧ (∀ k, (∃ a ∈ arts, raw_article_s3_object_key topic a = some k) →
              ∃ o, dictGet s k = some o
                ∧ dictGet s' k
                    = some { o with tags := dictSet o.tags is_sourced_article_tag_key v }
                ∧ dictGet (dictSet o.tags is_sourced_article_tag_key v)
                    is_sourced_article_tag_key = some v
                ∧ ∀ t, t ≠ is_sourced_article_tag_key →
                    dictGet (dictSet o.tags is_sourced_article_tag_key v) t
                      = dictGet o.tags t)
          ∧ (∀ k, (¬ ∃ a ∈ arts, raw_article_s3_object_key topic a = some k) →
              dictGet s' k = dictGet s k)) := by
  constructor
  · intro hbad
    unfold update_s3_articles_is_sourced_tag
    rw [if_pos hbad]
  · intro hgood hall
    obtain ⟨s', hloop, hupd, hframe⟩ := update_is_sourced_tag_loop_spec topic v arts s hall
    refine ⟨s', ?_, ?_, hframe⟩
    · unfold update_s3_articles_is_sourced_tag
      rw [if_neg ?hval]
      case hval =>
        intro hcon
        rcases hgood with h | h
        · exact hcon.1 h
        · exact hcon.2 h
      exact hloop
    · intro k hk
      obtain ⟨o, ho, ho'⟩ := hupd k hk
      exact ⟨o, ho, ho', dictGet_dictSet_same _ _ _,
        fun t ht => dictGet_dictSet_other _ _ _ _ ht⟩

def c8Article : RawArticle := sampleArticle "a1" "u1" sampleDtA

def c8Key : String := "raw_candidate_articles/topic1/2023/04/11/a1.json"

def c8State : S3State :=
  [(c8Key, ⟨"body", [], [("is_sourced_article", "False"), ("other", "x")]⟩)]

/-- Witness for C8 at a concrete article whose stored tags are
is_sourced_article = "False" and other = "x", updated to "True". -/
theorem c8_update_is_sourced_tag_semantics_witness :
    ∃ s', update_s3_articles_is_sourced_tag "topic1" c8State [c8Article] "True" = (s', none)
      ∧ (∀ k, (∃ a ∈ [c8Article], raw_article_s3_object_key "topic1" a = some k) →
          ∃ o, dictGet c8State k = some o
            ∧ dictGet s' k
                = some { o with tags := dictSet o.tags is_sourced_article_tag_key "True" }
            ∧ dictGet (dictSet o.tags is_sourced_article_tag_key "True")
                is_sourced_article_tag_key = some "True"
            ∧ ∀ t, t ≠ is_sourced_article_tag_key →
                dictGet (dictSet o.tags is_sourced_article_tag_key "True") t
                  = dictGet o.tags t)
      ∧ (∀ k, (¬ ∃ a ∈ [c8Article], raw_article_s3_object_key "topic1" a = some k) →
          dictGet s' k = dictGet c8State k) := by
  refine (c8_update_is_sourced_tag_semantics "topic1" c8State [c8Article] "True").2
    (Or.inl rfl) ?_
  intro a ha
  rw [List.mem_singleton] at ha
  subst ha
  exact ⟨c8Key, rfl, rfl⟩

end NADAL
